import Mathlib

/-!
Verification of the synchronization core of the y_ex repository.

The repository under src/ contains two Rust files, src/native/yex/src/doc.rs and
src/native/yex/src/awareness.rs. They are NIF wrappers around the external yrs
crate: the wrappers own the transaction slot, decode wire bytes before mutating,
translate errors, and fan events out to observer processes. The CRDT merge, the
v1/v2 wire codecs and the awareness merge live in the external yrs crate, which
is not part of src/; those parts are modelled from the spec and each such
definition says so in its doc comment. Everything else is translated directly
from the Rust source, with file and line references.
-/

namespace Yex

/-- Wire bytes; each entry is one octet value. -/
abbrev Bytes := List Nat

/-- Modelled from the spec: variable-length unsigned integer encoding used by both
wire formats of the codec, which is implemented by the external yrs crate
(lib0 var-uint), not by code under src/. Low 7 bits per byte, high bit set on
every byte except the last. -/
def encodeVarUintAux (fuel n : Nat) : Bytes :=
  match fuel with
  | 0 => [n]
  | fuel + 1 =>
    if n < 128 then [n] else (n % 128 + 128) :: encodeVarUintAux fuel (n / 128)

/-- The value itself always suffices as fuel: the encoded value shrinks by a
factor of 128 per emitted byte. -/
def encodeVarUint (n : Nat) : Bytes := encodeVarUintAux n n

/-- Modelled from the spec: var-uint decoder, inverse of encodeVarUint. Returns the
decoded value and the remaining bytes, or none on truncated input. -/
def decodeVarUint : Bytes → Option (Nat × Bytes)
  | [] => none
  | b :: rest =>
    if b < 128 then some (b, rest)
    else
      match decodeVarUint rest with
      | some (m, rest2) => some ((b - 128) + 128 * m, rest2)
      | none => none

/-- Concatenation of per-entry encodings, shared by every wire message body. -/
def encodeEntries {α : Type} (enc : α → Bytes) : List α → Bytes
  | [] => []
  | x :: xs => enc x ++ encodeEntries enc xs

/-- Decoder for a known number of consecutive entries. -/
def decodeEntries {α : Type} (dec : Bytes → Option (α × Bytes)) : Nat → Bytes → Option (List α × Bytes)
  | 0, bytes => some ([], bytes)
  | n + 1, bytes =>
    match dec bytes with
    | none => none
    | some (x, rest) =>
      match decodeEntries dec n rest with
      | none => none
      | some (xs, rest2) => some (x :: xs, rest2)

/-- Modelled from the spec: the v1 wire layout is an entry count followed by the
entries. Spec section 6 requires two independent binary encodings per value kind. -/
def encodeMsgV1 {α : Type} (enc : α → Bytes) (xs : List α) : Bytes :=
  encodeVarUint xs.length ++ encodeEntries enc xs

/-- Modelled from the spec: v1 decoder. A decoding error is surfaced for a
truncated count, truncated entries, or trailing bytes. -/
def decodeMsgV1 {α : Type} (dec : Bytes → Option (α × Bytes)) (bytes : Bytes) : Except String (List α) :=
  match decodeVarUint bytes with
  | none => Except.error "malformed count"
  | some (n, rest) =>
    match decodeEntries dec n rest with
    | none => Except.error "malformed entries"
    | some (xs, []) => Except.ok xs
    | some (_, _ :: _) => Except.error "trailing bytes"

/-- Modelled from the spec: the v2 wire layout carries a leading flags octet
(always zero, as written by the v2 encoder of the external yrs crate) before the
message body. -/
def encodeMsgV2 {α : Type} (enc : α → Bytes) (xs : List α) : Bytes :=
  0 :: encodeMsgV1 enc xs

/-- Modelled from the spec: v2 decoder; rejects input whose flags octet is absent
or nonzero, then decodes the body. -/
def decodeMsgV2 {α : Type} (dec : Bytes → Option (α × Bytes)) : Bytes → Except String (List α)
  | 0 :: rest => decodeMsgV1 dec rest
  | _ => Except.error "malformed v2 header"

/-- One character on the wire: its code point as a var-uint. -/
def encChar (c : Char) : Bytes := encodeVarUint c.toNat

/-- Character decoder, inverse of encChar. -/
def decChar (bytes : Bytes) : Option (Char × Bytes) :=
  match decodeVarUint bytes with
  | none => none
  | some (n, rest) => some (Char.ofNat n, rest)

/-- Length-tagged string encoding used inside awareness entries. -/
def encodeString (s : String) : Bytes :=
  encodeVarUint s.data.length ++ encodeEntries encChar s.data

/-- String decoder, inverse of encodeString. -/
def decodeString (bytes : Bytes) : Option (String × Bytes) :=
  match decodeVarUint bytes with
  | none => none
  | some (n, rest) =>
    match decodeEntries decChar n rest with
    | none => none
    | some (cs, rest2) => some (String.mk cs, rest2)

/-- Modelled from the spec: one causally ordered operation of an update, keyed by
the producing client and its per-client sequence number, with opaque content.
The concrete operation structure lives in the external yrs crate. -/
structure Op where
  client : Nat
  clock : Nat
  payload : Nat
  deriving DecidableEq, Repr

/-- An update on the wire: a finite set of operations, represented as a list. -/
abbrev Update := List Op

/-- A state vector on the wire: client id paired with the highest known clock. -/
abbrev StateVector := List (Nat × Nat)

/-- Modelled from the spec: one awareness update entry as in the external yrs
crate, a client id, its awareness clock and its JSON-encoded state. -/
structure AwEntry where
  client : Nat
  clock : Nat
  json : String
  deriving DecidableEq

/-- An awareness update on the wire: the list of changed clients. -/
abbrev AwarenessUpdate := List AwEntry

/-- Wire encoding of one operation. -/
def encOp (o : Op) : Bytes :=
  encodeVarUint o.client ++ (encodeVarUint o.clock ++ encodeVarUint o.payload)

/-- Wire decoder of one operation. -/
def decOp (bytes : Bytes) : Option (Op × Bytes) :=
  match decodeVarUint bytes with
  | none => none
  | some (c, r1) =>
    match decodeVarUint r1 with
    | none => none
    | some (k, r2) =>
      match decodeVarUint r2 with
      | none => none
      | some (p, r3) => some (⟨c, k, p⟩, r3)

/-- Wire encoding of one state-vector entry. -/
def encSvEntry (p : Nat × Nat) : Bytes :=
  encodeVarUint p.1 ++ encodeVarUint p.2

/-- Wire decoder of one state-vector entry. -/
def decSvEntry (bytes : Bytes) : Option ((Nat × Nat) × Bytes) :=
  match decodeVarUint bytes with
  | none => none
  | some (c, r1) =>
    match decodeVarUint r1 with
    | none => none
    | some (k, r2) => some ((c, k), r2)

/-- Wire encoding of one awareness entry. -/
def encAwEntry (e : AwEntry) : Bytes :=
  encodeVarUint e.client ++ (encodeVarUint e.clock ++ encodeString e.json)

/-- Wire decoder of one awareness entry. -/
def decAwEntry (bytes : Bytes) : Option (AwEntry × Bytes) :=
  match decodeVarUint bytes with
  | none => none
  | some (c, r1) =>
    match decodeVarUint r1 with
    | none => none
    | some (k, r2) =>
      match decodeString r2 with
      | none => none
      | some (s, r3) => some (⟨c, k, s⟩, r3)

/-- v1 update encoder (yrs Update::encode_v1, external to src/). -/
def Update.encode_v1 (u : Update) : Bytes := encodeMsgV1 encOp u

/-- v1 update decoder (yrs Update::decode_v1, called at doc.rs line 321). -/
def Update.decode_v1 (b : Bytes) : Except String Update := decodeMsgV1 decOp b

/-- v2 update encoder (yrs Update::encode_v2, external to src/). -/
def Update.encode_v2 (u : Update) : Bytes := encodeMsgV2 encOp u

/-- v2 update decoder (yrs Update::decode_v2, called at doc.rs line 334). -/
def Update.decode_v2 (b : Bytes) : Except String Update := decodeMsgV2 decOp b

/-- v1 state-vector encoder (yrs StateVector::encode_v1, doc.rs line 348). -/
def StateVector.encode_v1 (sv : StateVector) : Bytes := encodeMsgV1 encSvEntry sv

/-- v1 state-vector decoder (yrs StateVector::decode_v1, doc.rs line 360). -/
def StateVector.decode_v1 (b : Bytes) : Except String StateVector := decodeMsgV1 decSvEntry b

/-- v2 state-vector encoder (yrs StateVector::encode_v2, doc.rs line 375). -/
def StateVector.encode_v2 (sv : StateVector) : Bytes := encodeMsgV2 encSvEntry sv

/-- v2 state-vector decoder (yrs StateVector::decode_v2, doc.rs line 385). -/
def StateVector.decode_v2 (b : Bytes) : Except String StateVector := decodeMsgV2 decSvEntry b

/-- v1 awareness-update encoder (yrs AwarenessUpdate::encode_v1, awareness.rs line 212). -/
def AwarenessUpdate.encode_v1 (u : AwarenessUpdate) : Bytes := encodeMsgV1 encAwEntry u

/-- v1 awareness-update decoder (yrs AwarenessUpdate::decode_v1, awareness.rs line 223). -/
def AwarenessUpdate.decode_v1 (b : Bytes) : Except String AwarenessUpdate := decodeMsgV1 decAwEntry b

/-- v2 awareness-update encoder (external yrs crate). -/
def AwarenessUpdate.encode_v2 (u : AwarenessUpdate) : Bytes := encodeMsgV2 encAwEntry u

/-- v2 awareness-update decoder (external yrs crate). -/
def AwarenessUpdate.decode_v2 (b : Bytes) : Except String AwarenessUpdate := decodeMsgV2 decAwEntry b

/-- Modelled from the spec: the document store as the set of causally ordered
operations it has integrated. Spec sections 1 and 4.2 require the structured
type collaborators to accept remote operations idempotently, so the store of
integrated operations is a set. -/
structure DocState where
  ops : Finset Op
  deriving DecidableEq

/-- Modelled from the spec: merging a decoded update integrates its operations
into the store (yrs TransactionMut::apply_update, called at doc.rs lines 327 and
340). Per the causality rule of spec section 4.2 the merge is idempotent and
commutative, which the set union realizes. -/
def docApplyUpdate (d : DocState) (u : Update) : DocState :=
  ⟨d.ops ∪ u.toFinset⟩

/-- Sequential application of a list of updates, in arrival order. -/
def applyUpdates (d : DocState) (l : List Update) : DocState :=
  l.foldl docApplyUpdate d

/-- All operations carried by a list of updates. -/
def opsOfList (l : List Update) : Finset Op :=
  l.foldr (fun u s => u.toFinset ∪ s) ∅

/-- A fresh document with no integrated operations. -/
def emptyDoc : DocState := ⟨∅⟩

/-- Error record returned to the host, from the NifError struct of the wrappers. -/
structure NifError where
  reason : String
  message : String
  deriving DecidableEq

/-- From doc.rs lines 319 to 330: apply_update_v1 decodes the bytes first and
returns the decoding error before any transaction is opened, so a failed decode
leaves the document exactly as it was; on success the decoded update is merged. -/
def apply_update_v1 (d : DocState) (bytes : Bytes) : DocState × Option NifError :=
  match Update.decode_v1 bytes with
  | Except.error e => (d, some ⟨"encoding_exception", e⟩)
  | Except.ok u => (docApplyUpdate d u, none)

/-- From doc.rs lines 332 to 343: the v2 twin of apply_update_v1. -/
def apply_update_v2 (d : DocState) (bytes : Bytes) : DocState × Option NifError :=
  match Update.decode_v2 bytes with
  | Except.error e => (d, some ⟨"encoding_exception", e⟩)
  | Except.ok u => (docApplyUpdate d u, none)

/-- Injective key used to order operations canonically when a set of operations
is serialized. -/
def opKey (o : Op) : Nat :=
  Nat.pair o.client (Nat.pair o.clock o.payload)

instance : LinearOrder Op :=
  LinearOrder.lift' opKey (fun a b h => by
    unfold opKey at h
    obtain ⟨h1, h2⟩ := Nat.pair_eq_pair.mp h
    obtain ⟨h3, h4⟩ := Nat.pair_eq_pair.mp h2
    cases a; cases b; simp_all)

/-- Canonical serialization order of an operation set. -/
def sortOps (s : Finset Op) : List Op :=
  s.sort (fun a b => a ≤ b)

/-- Whether a state vector already reflects an operation: some entry of the
vector names the same client with a strictly larger clock bound. -/
def svCovers (sv : StateVector) (o : Op) : Bool :=
  sv.any (fun p => p.1 == o.client && decide (o.clock < p.2))

/-- Modelled from the spec: the diff against a remote state vector contains every
operation the local replica has that the vector does not reflect (yrs
encode_diff_v1 and encode_diff_v2, called at doc.rs lines 369 and 394). -/
def diffOps (d : DocState) (sv : StateVector) : Finset Op :=
  d.ops.filter (fun o => svCovers sv o = false)

/-- From doc.rs lines 353 to 371: encode_state_as_update_v1 decodes the optional
remote state vector, substituting the default empty vector when it is absent,
then encodes the diff of the document against it. -/
def encode_state_as_update_v1 (d : DocState) (svBytes : Option Bytes) : Except NifError Bytes :=
  match svBytes with
  | some b =>
    match StateVector.decode_v1 b with
    | Except.error e => Except.error ⟨"encoding_exception", e⟩
    | Except.ok sv => Except.ok (Update.encode_v1 (sortOps (diffOps d sv)))
  | none => Except.ok (Update.encode_v1 (sortOps (diffOps d [])))

/-- From doc.rs lines 378 to 396: the v2 twin of encode_state_as_update_v1. -/
def encode_state_as_update_v2 (d : DocState) (svBytes : Option Bytes) : Except NifError Bytes :=
  match svBytes with
  | some b =>
    match StateVector.decode_v2 b with
    | Except.error e => Except.error ⟨"encoding_exception", e⟩
    | Except.ok sv => Except.ok (Update.encode_v2 (sortOps (diffOps d sv)))
  | none => Except.ok (Update.encode_v2 (sortOps (diffOps d [])))

/-- An open mutable transaction: its origin tag and the store content at the
moment it was opened, from which the committed update event is computed
(doc.rs line 16 stores it as RefCell of Option TransactionMut). -/
structure Txn where
  origin : Option String
  startOps : Finset Op
  deriving DecidableEq

/-- One update event handed to document observers at commit: the origin of the
committed transaction and the operations it added (doc.rs lines 178 to 231 send
the encoded update plus the origin to each observer process). -/
structure UpdateEvent where
  origin : Option String
  update : Finset Op
  deriving DecidableEq

/-- The DocResource of doc.rs lines 14 to 19: the document store plus the
current-transaction slot; the events field records what has been handed to
update observers, in order. -/
structure DocRes where
  store : Finset Op
  currentTransaction : Option Txn
  events : List UpdateEvent
  deriving DecidableEq

/-- Clearing the current-transaction slot drops the stored TransactionMut, which
commits it in the external yrs crate and fires the registered update observers
when the transaction changed the store (doc.rs lines 174 to 176 and 300 to 302). -/
def commitCurrent (d : DocRes) : DocRes :=
  match d.currentTransaction with
  | none => d
  | some t =>
    if d.store = t.startOps then ⟨d.store, none, d.events⟩
    else ⟨d.store, none, d.events ++ [⟨t.origin, d.store \ t.startOps⟩]⟩

/-- yrs Doc::try_transact_mut (called at doc.rs lines 30, 43, 289 and 293): the
store is exclusively borrowed by the transaction held in the slot, so acquiring
a new mutable transaction fails exactly when the slot is occupied. -/
def tryTransactMut (d : DocRes) (origin : Option String) : Option Txn :=
  match d.currentTransaction with
  | some _ => none
  | none => some ⟨origin, d.store⟩

/-- Outcome of an entry point that may abort the process. -/
inductive PanicOr (α : Type) where
  | panik (msg : String) : PanicOr α
  | ok (a : α) : PanicOr α
  deriving DecidableEq

/-- From doc.rs lines 286 to 297: doc_begin_transaction acquires a mutable
transaction with unwrap, so a failed acquisition panics, and on success the
transaction is stored in the slot. -/
def doc_begin_transaction (d : DocRes) (origin : Option String) : PanicOr DocRes :=
  match tryTransactMut d origin with
  | none => PanicOr.panik "called unwrap on an Err value: transaction already open"
  | some t => PanicOr.ok ⟨d.store, some t, d.events⟩

/-- From doc.rs lines 174 to 176: commit_transaction clears the slot, committing
the held transaction. -/
def doc_commit_transaction (d : DocRes) : DocRes := commitCurrent d

/-- From doc.rs lines 22 to 34: DocInner::mutably runs the mutation inside the
transaction already held in the slot when there is one (the slot stays occupied
and nothing is committed), and otherwise acquires a fresh implicit transaction,
runs the mutation, and drops the transaction at scope exit, committing it before
returning. The mutation f consumes the store and returns the new store plus its
result value. -/
def DocInner.mutably {T : Type} (d : DocRes) (f : Finset Op → Finset Op × T) : DocRes × T :=
  match d.currentTransaction with
  | some _ => (⟨(f d.store).1, d.currentTransaction, d.events⟩, (f d.store).2)
  | none =>
    (commitCurrent ⟨(f d.store).1, some ⟨none, d.store⟩, d.events⟩, (f d.store).2)

/-- Shared value representation crossing the NIF boundary (NifAny). -/
inductive Any where
  | nullV : Any
  | boolV (b : Bool) : Any
  | intV (n : Int) : Any
  | strV (s : String) : Any
  deriving DecidableEq

/-- Lookup in an association list keyed by client id, first binding wins. -/
def lookupA {α : Type} : List (Nat × α) → Nat → Option α
  | [], _ => none
  | (k, v) :: rest, c => if k = c then some v else lookupA rest c

/-- Replace the first binding of a key, or append a new binding. -/
def setA {α : Type} : List (Nat × α) → Nat → α → List (Nat × α)
  | [], c, v => [(c, v)]
  | (k, w) :: rest, c, v =>
    if k = c then (c, v) :: rest else (k, w) :: setA rest c v

/-- Drop every binding of a key. -/
def eraseA {α : Type} : List (Nat × α) → Nat → List (Nat × α)
  | [], _ => []
  | (k, w) :: rest, c =>
    if k = c then eraseA rest c else (k, w) :: eraseA rest c

/-- A process id receiving observer messages. -/
abbrev Pid := Nat

/-- The added, updated and removed client lists of one awareness event
(NifAwarenessUpdateSummary, awareness.rs lines 26 to 34). -/
structure Summary where
  added : List Nat
  updated : List Nat
  removed : List Nat
  deriving DecidableEq

/-- The empty delta. -/
def emptySummary : Summary := ⟨[], [], []⟩

/-- Modelled from the spec: the awareness engine state. The clients field is the
per-client state map the wrappers read through yrs Awareness::clients
(awareness.rs lines 50 to 74): each known client id bound to its JSON-encoded
state. Observer registrations are kept as the process ids subscribed to the
update and change channels. -/
structure Awareness where
  clientId : Nat
  clients : List (Nat × String)
  updateObservers : List Pid
  changeObservers : List Pid
  deriving DecidableEq

/-- One message sent to an awareness observer process (awareness.rs lines 131 to
143 and 170 to 182): the event atom, the summary, the origin and a handle back
to the awareness instance. It carries no wire bytes. -/
structure AwMsg where
  pid : Pid
  tag : String
  summary : Summary
  origin : Option String
  handle : Awareness
  deriving DecidableEq

/-- Modelled from the spec, section 4.3 state machine: how one received entry
changes a client. The literal string null is the cleared marker of the wire
format. -/
inductive AwChange where
  | addedC : AwChange
  | updatedC : AwChange
  | removedC : AwChange
  | noChange : AwChange
  deriving DecidableEq

/-- Modelled from the spec, section 4.3: classify one received entry against the
current map. First observation of a client is added; a different value for a
present client is updated; the cleared marker for a present client is removed;
everything else changes nothing. -/
def classifyEntry (st : List (Nat × String)) (e : AwEntry) : AwChange :=
  if e.json = "null" then
    match lookupA st e.client with
    | some _ => AwChange.removedC
    | none => AwChange.noChange
  else
    match lookupA st e.client with
    | none => AwChange.addedC
    | some old => if old = e.json then AwChange.noChange else AwChange.updatedC

/-- Modelled from the spec, section 4.3: the map after one received entry.
Last writer wins per client; the cleared marker deletes the binding. -/
def stepState (st : List (Nat × String)) (e : AwEntry) : List (Nat × String) :=
  if e.json = "null" then
    match lookupA st e.client with
    | some _ => eraseA st e.client
    | none => st
  else
    match lookupA st e.client with
    | none => setA st e.client e.json
    | some old => if old = e.json then st else setA st e.client e.json

/-- Record one entry in the running summary according to its classification. -/
def stepSummary (st : List (Nat × String)) (sum : Summary) (e : AwEntry) : Summary :=
  match classifyEntry st e with
  | AwChange.addedC => ⟨sum.added ++ [e.client], sum.updated, sum.removed⟩
  | AwChange.updatedC => ⟨sum.added, sum.updated ++ [e.client], sum.removed⟩
  | AwChange.removedC => ⟨sum.added, sum.updated, sum.removed ++ [e.client]⟩
  | AwChange.noChange => sum

/-- Modelled from the spec: merging a decoded awareness update entry by entry,
accumulating the delta (yrs Awareness::apply_update, called at awareness.rs
lines 225 to 243). -/
def mergeAw : List (Nat × String) → Summary → AwarenessUpdate → List (Nat × String) × Summary
  | st, sum, [] => (st, sum)
  | st, sum, e :: rest => mergeAw (stepState st e) (stepSummary st sum e) rest

/-- Clients of an update that are recorded as added, relative to a fixed map. -/
def addedOf (st : List (Nat × String)) (u : AwarenessUpdate) : List Nat :=
  (u.filter (fun e => decide (classifyEntry st e = AwChange.addedC))).map AwEntry.client

/-- Clients of an update that are recorded as updated, relative to a fixed map. -/
def updatedOf (st : List (Nat × String)) (u : AwarenessUpdate) : List Nat :=
  (u.filter (fun e => decide (classifyEntry st e = AwChange.updatedC))).map AwEntry.client

/-- Clients of an update that are recorded as removed, relative to a fixed map. -/
def removedOf (st : List (Nat × String)) (u : AwarenessUpdate) : List Nat :=
  (u.filter (fun e => decide (classifyEntry st e = AwChange.removedC))).map AwEntry.client

/-- Declarative description of the merged map: the binding a client ends up with
after an update whose clients are pairwise distinct is merged, read off from the
pre-merge map and the single entry for that client, if any. -/
def expectedLookup (st : List (Nat × String)) (u : AwarenessUpdate) (c : Nat) : Option String :=
  match u.find? (fun e => e.client == c) with
  | none => lookupA st c
  | some e => if e.json = "null" then none else some e.json

/-- From awareness.rs lines 110 to 147 and 149 to 186: after a merge, every
update observer receives the event message, and every change observer receives
it when the delta is nonempty. Each message carries the summary, the origin and
a handle to the post-merge instance, never the wire bytes. -/
def awMessages (aw : Awareness) (post : Awareness) (sum : Summary) (origin : Option String) : List AwMsg :=
  aw.updateObservers.map (fun p => ⟨p, "awareness_update", sum, origin, post⟩)
    ++ (if sum = emptySummary then []
        else aw.changeObservers.map (fun p => ⟨p, "awareness_change", sum, origin, post⟩))

/-- From awareness.rs lines 215 to 245: awareness_apply_update_v1 decodes the
bytes, returning the decoding error with nothing changed on failure, and
otherwise merges the update and dispatches the observer messages. -/
def awareness_apply_update_v1 (aw : Awareness) (bytes : Bytes) (origin : Option String) :
    (Awareness × List AwMsg) × Option NifError :=
  match AwarenessUpdate.decode_v1 bytes with
  | Except.error e => ((aw, []), some ⟨"error", e⟩)
  | Except.ok u =>
    let merged := mergeAw aw.clients emptySummary u
    let post : Awareness := ⟨aw.clientId, merged.1, aw.updateObservers, aw.changeObservers⟩
    ((post, awMessages aw post merged.2 origin), none)

/-- Modelled from the spec: yrs Awareness::remove_state (called at awareness.rs
line 255). Removing a present client deletes its binding and fires the observer
channels with a removed delta; removing a client never seen is a no-op that
fires nothing. -/
def removeState (aw : Awareness) (c : Nat) : Awareness × List AwMsg :=
  match lookupA aw.clients c with
  | none => (aw, [])
  | some _ =>
    let post : Awareness := ⟨aw.clientId, eraseA aw.clients c, aw.updateObservers, aw.changeObservers⟩
    (post, awMessages aw post ⟨[], [], [c]⟩ none)

/-- From awareness.rs lines 246 to 258: awareness_remove_states removes each
listed client independently, concatenating whatever events each removal fired. -/
def awareness_remove_states (aw : Awareness) (clients : List Nat) : Awareness × List AwMsg :=
  clients.foldl
    (fun p c =>
      let r := removeState p.1 c
      (r.1, p.2 ++ r.2))
    (aw, [])

/-- Modelled from the spec: yrs Awareness::update_with_clients restricted to the
spec contract of section 7, which treats diffing against a client id never seen
as a no-op rather than an error: unknown ids contribute no entry. Known ids
contribute their current state; awareness clock bookkeeping is not observed by
any claim and is fixed to zero. -/
def updateWithClients (aw : Awareness) (clients : List Nat) : AwarenessUpdate :=
  clients.foldr
    (fun c acc =>
      match lookupA aw.clients c with
      | some s => (⟨c, 0, s⟩ : AwEntry) :: acc
      | none => acc)
    []

/-- From awareness.rs lines 188 to 214: awareness_encode_update_v1 encodes the
states of the requested clients, defaulting to every known client. -/
def awareness_encode_update_v1 (aw : Awareness) (clients : Option (List Nat)) : Except NifError Bytes :=
  match clients with
  | some cs => Except.ok (AwarenessUpdate.encode_v1 (updateWithClients aw cs))
  | none => Except.ok (AwarenessUpdate.encode_v1 (updateWithClients aw (aw.clients.map Prod.fst)))

/-- From awareness.rs lines 84 to 100: awareness_set_local_state serializes the
value through the external serde layer, given here as the parameter ser; a
serialization failure is surfaced as an error with the map untouched, and on
success only the binding of the own client id is written. -/
def awareness_set_local_state (ser : Any → Option String) (aw : Awareness) (v : Any) :
    Awareness × Option NifError :=
  match ser v with
  | none => (aw, some ⟨"error", "serialization failed"⟩)
  | some s =>
    (⟨aw.clientId, setA aw.clients aw.clientId s, aw.updateObservers, aw.changeObservers⟩, none)

/-- From awareness.rs lines 50 to 59: the known client ids are the keys of the
per-client map. -/
def awareness_get_client_ids (aw : Awareness) : List Nat :=
  aw.clients.map Prod.fst

/-- From awareness.rs lines 60 to 74: awareness_get_states deserializes each
stored state string through the external serde layer, given here as the
parameter fromStr, and silently drops every client whose string fails to parse. -/
def awareness_get_states (fromStr : String → Option Any) (aw : Awareness) : List (Nat × Any) :=
  aw.clients.filterMap
    (fun p =>
      match fromStr p.2 with
      | some a => some (p.1, a)
      | none => none)

/-! Codec lemmas -/

theorem decode_encodeVarUintAux : ∀ (fuel n : Nat), n ≤ fuel → ∀ (rest : Bytes),
    decodeVarUint (encodeVarUintAux fuel n ++ rest) = some (n, rest) := by
  intro fuel
  induction fuel with
  | zero =>
    intro n h rest
    have hn : n = 0 := Nat.le_zero.mp h
    subst hn
    simp [encodeVarUintAux, decodeVarUint]
  | succ fuel ih =>
    intro n h rest
    rw [encodeVarUintAux]
    by_cases hn : n < 128
    · rw [if_pos hn]
      simp [decodeVarUint, hn]
    · rw [if_neg hn]
      have h0 : 0 < n := by omega
      have hd : n / 128 < n := Nat.div_lt_self h0 (by norm_num)
      have hfuel : n / 128 ≤ fuel := by omega
      have hb : ¬ (n % 128 + 128 < 128) := by omega
      have hmod : n % 128 + 128 - 128 + 128 * (n / 128) = n := by
        have := Nat.mod_add_div n 128
        omega
      rw [List.cons_append, decodeVarUint, if_neg hb]
      simp only [ih (n / 128) hfuel rest]
      rw [hmod]

theorem decodeVarUint_encode (n : Nat) (rest : Bytes) :
    decodeVarUint (encodeVarUint n ++ rest) = some (n, rest) :=
  decode_encodeVarUintAux n n le_rfl rest

theorem decodeEntries_encode {α : Type} (dec : Bytes → Option (α × Bytes)) (enc : α → Bytes)
    (h : ∀ (x : α) (rest : Bytes), dec (enc x ++ rest) = some (x, rest)) :
    ∀ (xs : List α) (rest : Bytes),
      decodeEntries dec xs.length (encodeEntries enc xs ++ rest) = some (xs, rest) := by
  intro xs
  induction xs with
  | nil =>
    intro rest
    simp [encodeEntries, decodeEntries]
  | cons x xs ih =>
    intro rest
    simp only [List.length_cons, encodeEntries, List.append_assoc, decodeEntries, h, ih]

theorem decChar_encChar (c : Char) (rest : Bytes) : decChar (encChar c ++ rest) = some (c, rest) := by
  simp [decChar, encChar, decodeVarUint_encode, Char.ofNat_toNat]

theorem decodeString_encode (s : String) (rest : Bytes) :
    decodeString (encodeString s ++ rest) = some (s, rest) := by
  obtain ⟨cs⟩ := s
  simp [decodeString, encodeString, List.append_assoc, decodeVarUint_encode,
    decodeEntries_encode decChar encChar decChar_encChar]

theorem decOp_encOp (o : Op) (rest : Bytes) : decOp (encOp o ++ rest) = some (o, rest) := by
  simp [decOp, encOp, List.append_assoc, decodeVarUint_encode]

theorem decSvEntry_encSvEntry (p : Nat × Nat) (rest : Bytes) :
    decSvEntry (encSvEntry p ++ rest) = some (p, rest) := by
  simp [decSvEntry, encSvEntry, List.append_assoc, decodeVarUint_encode]

theorem decAwEntry_encAwEntry (e : AwEntry) (rest : Bytes) :
    decAwEntry (encAwEntry e ++ rest) = some (e, rest) := by
  simp [decAwEntry, encAwEntry, List.append_assoc, decodeVarUint_encode, decodeString_encode]

theorem decodeMsgV1_encode {α : Type} (dec : Bytes → Option (α × Bytes)) (enc : α → Bytes)
    (h : ∀ (x : α) (rest : Bytes), dec (enc x ++ rest) = some (x, rest)) (xs : List α) :
    decodeMsgV1 dec (encodeMsgV1 enc xs) = Except.ok xs := by
  have hsplit : encodeMsgV1 enc xs = encodeVarUint xs.length ++ (encodeEntries enc xs ++ []) := by
    simp [encodeMsgV1]
  rw [decodeMsgV1, hsplit, decodeVarUint_encode]
  simp only [decodeEntries_encode dec enc h]

theorem decodeMsgV2_encode {α : Type} (dec : Bytes → Option (α × Bytes)) (enc : α → Bytes)
    (h : ∀ (x : α) (rest : Bytes), dec (enc x ++ rest) = some (x, rest)) (xs : List α) :
    decodeMsgV2 dec (encodeMsgV2 enc xs) = Except.ok xs := by
  rw [encodeMsgV2]
  show decodeMsgV1 dec (encodeMsgV1 enc xs) = Except.ok xs
  exact decodeMsgV1_encode dec enc h xs

theorem encodeVarUint_head (n : Nat) :
    ∃ b t, encodeVarUint n = b :: t ∧ (n = 0 → (b = 0 ∧ t = [])) ∧ (n ≠ 0 → b ≠ 0) := by
  rw [encodeVarUint]
  cases n with
  | zero => exact ⟨0, [], rfl, fun _ => ⟨rfl, rfl⟩, fun h0 => absurd rfl h0⟩
  | succ m =>
    rw [encodeVarUintAux]
    by_cases h : m + 1 < 128
    · exact ⟨m + 1, [], by rw [if_pos h], fun h0 => absurd h0 (Nat.succ_ne_zero m),
        fun _ => Nat.succ_ne_zero m⟩
    · exact ⟨(m + 1) % 128 + 128, encodeVarUintAux m ((m + 1) / 128), by rw [if_neg h],
        fun h0 => absurd h0 (Nat.succ_ne_zero m), fun _ => by omega⟩

theorem decodeMsgV1_encodeMsgV2 {α : Type} (dec : Bytes → Option (α × Bytes)) (enc : α → Bytes)
    (xs : List α) :
    decodeMsgV1 dec (encodeMsgV2 enc xs) = Except.error "trailing bytes" := by
  obtain ⟨b, t, hbt, _, _⟩ := encodeVarUint_head xs.length
  have h0 : decodeVarUint (0 :: encodeMsgV1 enc xs) = some (0, encodeMsgV1 enc xs) := by
    simp [decodeVarUint]
  rw [encodeMsgV2, decodeMsgV1, h0]
  simp only [decodeEntries]
  rw [encodeMsgV1, hbt]
  rfl

theorem decodeMsgV2_encodeMsgV1 {α : Type} (dec : Bytes → Option (α × Bytes)) (enc : α → Bytes)
    (xs : List α) :
    ∃ e, decodeMsgV2 dec (encodeMsgV1 enc xs) = Except.error e := by
  obtain ⟨b, t, hbt, h0, hne⟩ := encodeVarUint_head xs.length
  by_cases hx : xs = []
  · subst hx
    obtain ⟨hb, ht⟩ := h0 rfl
    subst hb
    subst ht
    refine ⟨"malformed count", ?_⟩
    rw [encodeMsgV1, hbt]
    simp [encodeEntries, decodeMsgV2, decodeMsgV1, decodeVarUint]
  · have hlen : xs.length ≠ 0 := by
      simpa [List.length_eq_zero] using hx
    have hb := hne hlen
    refine ⟨"malformed v2 header", ?_⟩
    rw [encodeMsgV1, hbt]
    cases b with
    | zero => exact absurd rfl hb
    | succ k => rfl

/-- C5: for every Update, StateVector and AwarenessUpdate value, decoding its
encoding yields the value back, independently for the v1 and the v2 wire
format. -/
theorem codec_roundtrip_v1_v2 :
    (∀ u : Update, Update.decode_v1 (Update.encode_v1 u) = Except.ok u)
    ∧ (∀ u : Update, Update.decode_v2 (Update.encode_v2 u) = Except.ok u)
    ∧ (∀ sv : StateVector, StateVector.decode_v1 (StateVector.encode_v1 sv) = Except.ok sv)
    ∧ (∀ sv : StateVector, StateVector.decode_v2 (StateVector.encode_v2 sv) = Except.ok sv)
    ∧ (∀ a : AwarenessUpdate, AwarenessUpdate.decode_v1 (AwarenessUpdate.encode_v1 a) = Except.ok a)
    ∧ (∀ a : AwarenessUpdate, AwarenessUpdate.decode_v2 (AwarenessUpdate.encode_v2 a) = Except.ok a) :=
  ⟨fun u => decodeMsgV1_encode decOp encOp decOp_encOp u,
   fun u => decodeMsgV2_encode decOp encOp decOp_encOp u,
   fun sv => decodeMsgV1_encode decSvEntry encSvEntry decSvEntry_encSvEntry sv,
   fun sv => decodeMsgV2_encode decSvEntry encSvEntry decSvEntry_encSvEntry sv,
   fun a => decodeMsgV1_encode decAwEntry encAwEntry decAwEntry_encAwEntry a,
   fun a => decodeMsgV2_encode decAwEntry encAwEntry decAwEntry_encAwEntry a⟩

/-! Document and update lemmas -/

theorem docState_eq_of_ops {d1 d2 : DocState} (h : d1.ops = d2.ops) : d1 = d2 := by
  cases d1
  cases d2
  simpa using h

theorem opsOfList_cons (u : Update) (t : List Update) :
    opsOfList (u :: t) = u.toFinset ∪ opsOfList t := rfl

theorem applyUpdates_ops : ∀ (l : List Update) (d : DocState),
    (applyUpdates d l).ops = d.ops ∪ opsOfList l := by
  intro l
  induction l with
  | nil =>
    intro d
    simp [applyUpdates, opsOfList]
  | cons u t ih =>
    intro d
    show (applyUpdates (docApplyUpdate d u) t).ops = _
    rw [ih, opsOfList_cons]
    show d.ops ∪ u.toFinset ∪ opsOfList t = d.ops ∪ (u.toFinset ∪ opsOfList t)
    rw [Finset.union_assoc]

theorem opsOfList_eq_biUnion (l : List Update) :
    opsOfList l = l.toFinset.biUnion List.toFinset := by
  induction l with
  | nil => simp [opsOfList]
  | cons u t ih =>
    rw [opsOfList_cons, ih, List.toFinset_cons, Finset.biUnion_insert]

/-- C1: update application is idempotent and commutative with respect to the
resulting document state; applying the same set of updates in any arrival
order, with any duplication, converges to the same final state, hence to the
same full-state export, as applying it once in causal order. -/
theorem apply_update_idempotent_commutative :
    (∀ (d : DocState) (u : Update), docApplyUpdate (docApplyUpdate d u) u = docApplyUpdate d u)
    ∧ (∀ (d : DocState) (u v : Update),
        docApplyUpdate (docApplyUpdate d u) v = docApplyUpdate (docApplyUpdate d v) u)
    ∧ (∀ (d : DocState) (bytes : Bytes),
        (apply_update_v1 (apply_update_v1 d bytes).1 bytes).1 = (apply_update_v1 d bytes).1)
    ∧ (∀ (d : DocState) (l1 l2 : List Update), l1.toFinset = l2.toFinset →
        applyUpdates d l1 = applyUpdates d l2)
    ∧ (∀ (l1 l2 : List Update), l1.toFinset = l2.toFinset →
        encode_state_as_update_v1 (applyUpdates emptyDoc l1) none
          = encode_state_as_update_v1 (applyUpdates emptyDoc l2) none) := by
  have hidem : ∀ (d : DocState) (u : Update),
      docApplyUpdate (docApplyUpdate d u) u = docApplyUpdate d u := by
    intro d u
    apply docState_eq_of_ops
    show d.ops ∪ u.toFinset ∪ u.toFinset = d.ops ∪ u.toFinset
    rw [Finset.union_assoc, Finset.union_self]
  have hconv : ∀ (d : DocState) (l1 l2 : List Update), l1.toFinset = l2.toFinset →
      applyUpdates d l1 = applyUpdates d l2 := by
    intro d l1 l2 h
    apply docState_eq_of_ops
    rw [applyUpdates_ops, applyUpdates_ops, opsOfList_eq_biUnion, opsOfList_eq_biUnion, h]
  refine ⟨hidem, ?_, ?_, hconv, ?_⟩
  · intro d u v
    apply docState_eq_of_ops
    show d.ops ∪ u.toFinset ∪ v.toFinset = d.ops ∪ v.toFinset ∪ u.toFinset
    exact Finset.union_right_comm _ _ _
  · intro d bytes
    cases hdec : Update.decode_v1 bytes with
    | error e => simp [apply_update_v1, hdec]
    | ok u =>
      simp only [apply_update_v1, hdec]
      exact hidem d u
  · intro l1 l2 h
    rw [hconv emptyDoc l1 l2 h]

theorem apply_update_idempotent_commutative_witness :
    applyUpdates emptyDoc [[⟨1, 0, 7⟩], [⟨2, 0, 5⟩], [⟨1, 0, 7⟩]]
      = applyUpdates emptyDoc [[⟨2, 0, 5⟩], [⟨1, 0, 7⟩]] :=
  apply_update_idempotent_commutative.2.2.2.1 emptyDoc
    [[⟨1, 0, 7⟩], [⟨2, 0, 5⟩], [⟨1, 0, 7⟩]] [[⟨2, 0, 5⟩], [⟨1, 0, 7⟩]] (by decide)

/-- C2: a byte string that fails to decode, in particular any byte string
produced by the encoder of the other wire format, makes apply_update return a
decoding error with the document state left completely unmodified. -/
theorem apply_update_atomic_on_decode_error :
    (∀ (d : DocState) (bytes : Bytes) (e : String), Update.decode_v1 bytes = Except.error e →
        apply_update_v1 d bytes = (d, some ⟨"encoding_exception", e⟩))
    ∧ (∀ (d : DocState) (bytes : Bytes) (e : String), Update.decode_v2 bytes = Except.error e →
        apply_update_v2 d bytes = (d, some ⟨"encoding_exception", e⟩))
    ∧ (∀ (d : DocState) (u : Update),
        apply_update_v1 d (Update.encode_v2 u)
          = (d, some ⟨"encoding_exception", "trailing bytes"⟩))
    ∧ (∀ (d : DocState) (u : Update), ∃ e, apply_update_v2 d (Update.encode_v1 u) = (d, some e)) := by
  refine ⟨?_, ?_, ?_, ?_⟩
  · intro d bytes e h
    simp [apply_update_v1, h]
  · intro d bytes e h
    simp [apply_update_v2, h]
  · intro d u
    have h : Update.decode_v1 (Update.encode_v2 u) = Except.error "trailing bytes" :=
      decodeMsgV1_encodeMsgV2 decOp encOp u
    simp [apply_update_v1, h]
  · intro d u
    obtain ⟨e, h⟩ : ∃ e, Update.decode_v2 (Update.encode_v1 u) = Except.error e :=
      decodeMsgV2_encodeMsgV1 decOp encOp u
    exact ⟨⟨"encoding_exception", e⟩, by simp [apply_update_v2, h]⟩

theorem apply_update_atomic_on_decode_error_witness :
    apply_update_v1 emptyDoc [1] = (emptyDoc, some ⟨"encoding_exception", "malformed entries"⟩) :=
  apply_update_atomic_on_decode_error.1 emptyDoc [1] "malformed entries" rfl

/-- C3: beginning a transaction while one is already open fails loudly with a
panic; it never returns a document whose slot was silently replaced or
interleaved. -/
theorem begin_transaction_fails_when_open :
    ∀ (d : DocRes) (origin : Option String) (t : Txn), d.currentTransaction = some t →
      doc_begin_transaction d origin
        = PanicOr.panik "called unwrap on an Err value: transaction already open" := by
  intro d origin t h
  rw [doc_begin_transaction, tryTransactMut, h]

theorem begin_transaction_fails_when_open_witness :
    doc_begin_transaction ⟨∅, some ⟨none, ∅⟩, []⟩ (some "peer")
      = PanicOr.panik "called unwrap on an Err value: transaction already open" :=
  begin_transaction_fails_when_open ⟨∅, some ⟨none, ∅⟩, []⟩ (some "peer") ⟨none, ∅⟩ rfl

/-- C4: with a transaction already open, DocInner::mutably runs the mutation
inside it, leaves the slot open and commits nothing; with no open transaction it
runs the mutation inside an implicit transaction and commits it before
returning, leaving the slot empty and appending the commit event exactly when
the mutation changed the store. -/
theorem mutably_reuses_or_commits :
    ∀ (T : Type) (d : DocRes) (f : Finset Op → Finset Op × T),
      (∀ t, d.currentTransaction = some t →
        DocInner.mutably d f = (⟨(f d.store).1, some t, d.events⟩, (f d.store).2))
      ∧ (d.currentTransaction = none →
        DocInner.mutably d f
          = (⟨(f d.store).1, none,
              if (f d.store).1 = d.store then d.events
              else d.events ++ [⟨none, (f d.store).1 \ d.store⟩]⟩, (f d.store).2)) := by
  intro T d f
  constructor
  · intro t h
    rw [DocInner.mutably]
    rw [h]
  · intro h
    rw [DocInner.mutably, h]
    show (commitCurrent ⟨(f d.store).1, some ⟨none, d.store⟩, d.events⟩, (f d.store).2) = _
    simp only [commitCurrent]
    by_cases hc : (f d.store).1 = d.store
    · simp [hc]
    · simp [hc]

theorem mutably_reuses_or_commits_witness :
    DocInner.mutably (⟨∅, some ⟨some "batch", ∅⟩, []⟩ : DocRes)
        (fun s => (insert ⟨1, 0, 7⟩ s, 42))
      = (⟨insert ⟨1, 0, 7⟩ ∅, some ⟨some "batch", ∅⟩, []⟩, 42) :=
  (mutably_reuses_or_commits Nat ⟨∅, some ⟨some "batch", ∅⟩, []⟩
    (fun s => (insert ⟨1, 0, 7⟩ s, 42))).1 ⟨some "batch", ∅⟩ rfl

/-- C6: encode_state_as_update with an absent remote state vector produces the
same bytes as diffing against the empty state vector, namely the encoding of
every operation the replica has; with a present, well-formed state vector it
encodes exactly the operations the vector does not reflect. -/
theorem encode_state_as_update_diff :
    ∀ (d : DocState),
      (encode_state_as_update_v1 d none
        = encode_state_as_update_v1 d (some (StateVector.encode_v1 [])))
      ∧ (encode_state_as_update_v2 d none
        = encode_state_as_update_v2 d (some (StateVector.encode_v2 [])))
      ∧ (encode_state_as_update_v1 d none = Except.ok (Update.encode_v1 (sortOps d.ops)))
      ∧ (∀ (b : Bytes) (sv : StateVector), StateVector.decode_v1 b = Except.ok sv →
          encode_state_as_update_v1 d (some b)
            = Except.ok (Update.encode_v1 (sortOps (diffOps d sv)))
          ∧ ∀ o : Op, o ∈ diffOps d sv ↔ o ∈ d.ops ∧ svCovers sv o = false)
      ∧ (∀ (b : Bytes) (sv : StateVector), StateVector.decode_v2 b = Except.ok sv →
          encode_state_as_update_v2 d (some b)
            = Except.ok (Update.encode_v2 (sortOps (diffOps d sv)))) := by
  intro d
  have hmem : ∀ (sv : StateVector) (o : Op),
      o ∈ diffOps d sv ↔ o ∈ d.ops ∧ svCovers sv o = false := by
    intro sv o
    simp [diffOps, Finset.mem_filter]
  refine ⟨?_, ?_, ?_, ?_, ?_⟩
  · have h1 : StateVector.decode_v1 (StateVector.encode_v1 []) = Except.ok [] :=
      decodeMsgV1_encode decSvEntry encSvEntry decSvEntry_encSvEntry []
    rw [encode_state_as_update_v1, encode_state_as_update_v1]
    simp only [h1]
  · have h2 : StateVector.decode_v2 (StateVector.encode_v2 []) = Except.ok [] :=
      decodeMsgV2_encode decSvEntry encSvEntry decSvEntry_encSvEntry []
    rw [encode_state_as_update_v2, encode_state_as_update_v2]
    simp only [h2]
  · rw [encode_state_as_update_v1]
    have hdiff : diffOps d [] = d.ops := by
      apply Finset.filter_true_of_mem
      intro o _
      rfl
    rw [hdiff]
  · intro b sv h
    rw [encode_state_as_update_v1, h]
    exact ⟨rfl, hmem sv⟩
  · intro b sv h
    rw [encode_state_as_update_v2, h]

theorem encode_state_as_update_diff_witness :
    encode_state_as_update_v1 emptyDoc (some [0])
      = Except.ok (Update.encode_v1 (sortOps (diffOps emptyDoc []))) :=
  ((encode_state_as_update_diff emptyDoc).2.2.2.1 [0] [] rfl).1

/-! Association list lemmas -/

theorem lookupA_setA_same {α : Type} : ∀ (m : List (Nat × α)) (c : Nat) (v : α),
    lookupA (setA m c v) c = some v := by
  intro m c v
  induction m with
  | nil => simp [setA, lookupA]
  | cons p rest ih =>
    obtain ⟨k, w⟩ := p
    by_cases h : k = c
    · simp [setA, h, lookupA]
    · simp [setA, h, lookupA, ih]

theorem lookupA_setA_other {α : Type} : ∀ (m : List (Nat × α)) (c c2 : Nat) (v : α), c2 ≠ c →
    lookupA (setA m c v) c2 = lookupA m c2 := by
  intro m c c2 v hne
  have hcc : ¬ (c = c2) := fun h => hne h.symm
  induction m with
  | nil =>
    show (if c = c2 then some v else none) = none
    rw [if_neg hcc]
  | cons p rest ih =>
    obtain ⟨k, w⟩ := p
    rw [setA]
    by_cases h : k = c
    · rw [if_pos h]
      have hk : ¬ (k = c2) := by rw [h]; exact hcc
      show (if c = c2 then some v else lookupA rest c2)
        = (if k = c2 then some w else lookupA rest c2)
      rw [if_neg hcc, if_neg hk]
    · rw [if_neg h]
      show (if k = c2 then some w else lookupA (setA rest c v) c2)
        = (if k = c2 then some w else lookupA rest c2)
      by_cases h2 : k = c2
      · rw [if_pos h2, if_pos h2]
      · rw [if_neg h2, if_neg h2, ih]

theorem lookupA_eraseA_same {α : Type} : ∀ (m : List (Nat × α)) (c : Nat),
    lookupA (eraseA m c) c = none := by
  intro m c
  induction m with
  | nil => rfl
  | cons p rest ih =>
    obtain ⟨k, w⟩ := p
    rw [eraseA]
    by_cases h : k = c
    · rw [if_pos h]
      exact ih
    · rw [if_neg h]
      show (if k = c then some w else lookupA (eraseA rest c) c) = none
      rw [if_neg h, ih]

theorem lookupA_eraseA_other {α : Type} : ∀ (m : List (Nat × α)) (c c2 : Nat), c2 ≠ c →
    lookupA (eraseA m c) c2 = lookupA m c2 := by
  intro m c c2 hne
  induction m with
  | nil => rfl
  | cons p rest ih =>
    obtain ⟨k, w⟩ := p
    rw [eraseA]
    by_cases h : k = c
    · rw [if_pos h, ih]
      have hk : ¬ (k = c2) := by rw [h]; exact fun hh => hne hh.symm
      show lookupA rest c2 = (if k = c2 then some w else lookupA rest c2)
      rw [if_neg hk]
    · rw [if_neg h]
      show (if k = c2 then some w else lookupA (eraseA rest c) c2)
        = (if k = c2 then some w else lookupA rest c2)
      by_cases h2 : k = c2
      · rw [if_pos h2, if_pos h2]
      · rw [if_neg h2, if_neg h2, ih]

theorem lookupA_of_mem_nodup {α : Type} : ∀ (m : List (Nat × α)),
    (m.map Prod.fst).Nodup → ∀ p ∈ m, lookupA m p.1 = some p.2 := by
  intro m
  induction m with
  | nil => intro _ p hp; simp at hp
  | cons q rest ih =>
    intro hnod p hp
    rw [List.map_cons, List.nodup_cons] at hnod
    rcases List.mem_cons.mp hp with h | h
    · subst h
      simp [lookupA]
    · have hne : q.1 ≠ p.1 := by
        intro hq
        exact hnod.1 (hq ▸ List.mem_map_of_mem Prod.fst h)
      simp [lookupA, hne, ih hnod.2 p h]

/-! Awareness merge lemmas -/

theorem lookupA_stepState_other (st : List (Nat × String)) (e : AwEntry) (c : Nat)
    (h : c ≠ e.client) : lookupA (stepState st e) c = lookupA st c := by
  rw [stepState]
  by_cases hj : e.json = "null"
  · rw [if_pos hj]
    cases hl : lookupA st e.client with
    | none => simp only [hl]
    | some v =>
      simp only [hl]
      exact lookupA_eraseA_other st e.client c h
  · rw [if_neg hj]
    cases hl : lookupA st e.client with
    | none =>
      simp only [hl]
      exact lookupA_setA_other st e.client c e.json h
    | some old =>
      simp only [hl]
      by_cases ho : old = e.json
      · rw [if_pos ho]
      · rw [if_neg ho]
        exact lookupA_setA_other st e.client c e.json h

theorem lookupA_stepState_same (st : List (Nat × String)) (e : AwEntry) :
    lookupA (stepState st e) e.client = if e.json = "null" then none else some e.json := by
  rw [stepState]
  by_cases hj : e.json = "null"
  · rw [if_pos hj, if_pos hj]
    cases hl : lookupA st e.client with
    | none => simp only [hl]
    | some v =>
      simp only [hl]
      exact lookupA_eraseA_same st e.client
  · rw [if_neg hj, if_neg hj]
    cases hl : lookupA st e.client with
    | none =>
      simp only [hl]
      exact lookupA_setA_same st e.client e.json
    | some old =>
      simp only [hl]
      by_cases ho : old = e.json
      · rw [if_pos ho, hl, ho]
      · rw [if_neg ho]
        exact lookupA_setA_same st e.client e.json

theorem classifyEntry_stepState (st : List (Nat × String)) (e e2 : AwEntry)
    (h : e2.client ≠ e.client) : classifyEntry (stepState st e) e2 = classifyEntry st e2 := by
  rw [classifyEntry, classifyEntry, lookupA_stepState_other st e e2.client h]

theorem mergeAw_lookup_notin : ∀ (u : AwarenessUpdate) (st : List (Nat × String)) (sum : Summary)
    (c : Nat), (∀ e2 ∈ u, e2.client ≠ c) → lookupA (mergeAw st sum u).1 c = lookupA st c := by
  intro u
  induction u with
  | nil => intro st sum c _; rfl
  | cons e rest ih =>
    intro st sum c h
    rw [mergeAw]
    rw [ih (stepState st e) (stepSummary st sum e) c (fun e2 he2 => h e2 (List.mem_cons_of_mem e he2))]
    exact lookupA_stepState_other st e c (Ne.symm (h e (List.mem_cons_self e rest)))

theorem mergeAw_lookup : ∀ (u : AwarenessUpdate) (st : List (Nat × String)) (sum : Summary)
    (c : Nat), (u.map AwEntry.client).Nodup →
    lookupA (mergeAw st sum u).1 c = expectedLookup st u c := by
  intro u
  induction u with
  | nil => intro st sum c _; rfl
  | cons e rest ih =>
    intro st sum c hnod
    rw [List.map_cons, List.nodup_cons] at hnod
    rw [mergeAw]
    by_cases hc : e.client = c
    · have hfind : (e :: rest).find? (fun e2 => e2.client == c) = some e := by
        simp [List.find?, hc]
      have hnotin : ∀ e2 ∈ rest, e2.client ≠ c := by
        intro e2 he2 hceq
        exact hnod.1 (hc ▸ hceq ▸ List.mem_map_of_mem AwEntry.client he2)
      rw [mergeAw_lookup_notin rest (stepState st e) (stepSummary st sum e) c hnotin]
      rw [expectedLookup, hfind]
      subst hc
      exact lookupA_stepState_same st e
    · have hfind : (e :: rest).find? (fun e2 => e2.client == c)
          = rest.find? (fun e2 => e2.client == c) := by
        have hbeq : (e.client == c) = false := beq_eq_false_iff_ne.mpr hc
        simp [List.find?, hbeq]
      rw [ih (stepState st e) (stepSummary st sum e) c hnod.2]
      rw [expectedLookup, expectedLookup, hfind]
      cases hf : rest.find? (fun e2 => e2.client == c) with
      | none =>
        simp only [hf]
        exact lookupA_stepState_other st e c (fun h2 => hc h2.symm)
      | some e2 => simp only [hf]

theorem addedOf_cons (st : List (Nat × String)) (e : AwEntry) (rest : AwarenessUpdate) :
    addedOf st (e :: rest)
      = (if classifyEntry st e = AwChange.addedC then [e.client] else []) ++ addedOf st rest := by
  by_cases h : classifyEntry st e = AwChange.addedC
  · simp [addedOf, List.filter_cons, h]
  · simp [addedOf, List.filter_cons, h]

theorem updatedOf_cons (st : List (Nat × String)) (e : AwEntry) (rest : AwarenessUpdate) :
    updatedOf st (e :: rest)
      = (if classifyEntry st e = AwChange.updatedC then [e.client] else []) ++ updatedOf st rest := by
  by_cases h : classifyEntry st e = AwChange.updatedC
  · simp [updatedOf, List.filter_cons, h]
  · simp [updatedOf, List.filter_cons, h]

theorem removedOf_cons (st : List (Nat × String)) (e : AwEntry) (rest : AwarenessUpdate) :
    removedOf st (e :: rest)
      = (if classifyEntry st e = AwChange.removedC then [e.client] else []) ++ removedOf st rest := by
  by_cases h : classifyEntry st e = AwChange.removedC
  · simp [removedOf, List.filter_cons, h]
  · simp [removedOf, List.filter_cons, h]

theorem addedOf_stepState (st : List (Nat × String)) (e : AwEntry) (rest : AwarenessUpdate)
    (h : ∀ e2 ∈ rest, e2.client ≠ e.client) : addedOf (stepState st e) rest = addedOf st rest := by
  rw [addedOf, addedOf]
  congr 1
  apply List.filter_congr
  intro e2 he2
  rw [classifyEntry_stepState st e e2 (h e2 he2)]

theorem updatedOf_stepState (st : List (Nat × String)) (e : AwEntry) (rest : AwarenessUpdate)
    (h : ∀ e2 ∈ rest, e2.client ≠ e.client) : updatedOf (stepState st e) rest = updatedOf st rest := by
  rw [updatedOf, updatedOf]
  congr 1
  apply List.filter_congr
  intro e2 he2
  rw [classifyEntry_stepState st e e2 (h e2 he2)]

theorem removedOf_stepState (st : List (Nat × String)) (e : AwEntry) (rest : AwarenessUpdate)
    (h : ∀ e2 ∈ rest, e2.client ≠ e.client) : removedOf (stepState st e) rest = removedOf st rest := by
  rw [removedOf, removedOf]
  congr 1
  apply List.filter_congr
  intro e2 he2
  rw [classifyEntry_stepState st e e2 (h e2 he2)]

theorem mergeAw_summary : ∀ (u : AwarenessUpdate) (st : List (Nat × String)) (sum : Summary),
    (u.map AwEntry.client).Nodup →
    (mergeAw st sum u).2
      = ⟨sum.added ++ addedOf st u, sum.updated ++ updatedOf st u, sum.removed ++ removedOf st u⟩ := by
  intro u
  induction u with
  | nil =>
    intro st sum _
    simp [mergeAw, addedOf, updatedOf, removedOf]
  | cons e rest ih =>
    intro st sum hnod
    rw [List.map_cons, List.nodup_cons] at hnod
    have hne : ∀ e2 ∈ rest, e2.client ≠ e.client := by
      intro e2 he2 hceq
      exact hnod.1 (hceq ▸ List.mem_map_of_mem AwEntry.client he2)
    rw [mergeAw, ih (stepState st e) (stepSummary st sum e) hnod.2]
    rw [addedOf_cons, updatedOf_cons, removedOf_cons,
      addedOf_stepState st e rest hne, updatedOf_stepState st e rest hne,
      removedOf_stepState st e rest hne]
    rw [stepSummary]
    cases hcl : classifyEntry st e <;> simp [hcl]

/-- C7: a successful apply_update merges the per-client state map and delivers
to every registered observer the added, updated and removed client lists
computed relative to the pre-merge state, together with the optional origin tag
and a handle to the awareness instance; the delivered messages carry only the
summary, the origin and the handle, never the raw wire bytes. -/
theorem awareness_apply_update_delivers_delta :
    ∀ (aw : Awareness) (bytes : Bytes) (origin : Option String) (u : AwarenessUpdate),
      AwarenessUpdate.decode_v1 bytes = Except.ok u → (u.map AwEntry.client).Nodup →
      (awareness_apply_update_v1 aw bytes origin).2 = none
      ∧ (awareness_apply_update_v1 aw bytes origin).1.1
          = ⟨aw.clientId, (mergeAw aw.clients emptySummary u).1,
             aw.updateObservers, aw.changeObservers⟩
      ∧ (mergeAw aw.clients emptySummary u).2
          = ⟨addedOf aw.clients u, updatedOf aw.clients u, removedOf aw.clients u⟩
      ∧ (∀ c, lookupA (mergeAw aw.clients emptySummary u).1 c = expectedLookup aw.clients u c)
      ∧ (awareness_apply_update_v1 aw bytes origin).1.2
          = awMessages aw (awareness_apply_update_v1 aw bytes origin).1.1
              (mergeAw aw.clients emptySummary u).2 origin
      ∧ (∀ m ∈ (awareness_apply_update_v1 aw bytes origin).1.2,
          m.summary = ⟨addedOf aw.clients u, updatedOf aw.clients u, removedOf aw.clients u⟩
          ∧ m.origin = origin
          ∧ m.handle = (awareness_apply_update_v1 aw bytes origin).1.1) := by
  intro aw bytes origin u hdec hnod
  have happ : awareness_apply_update_v1 aw bytes origin
      = ((⟨aw.clientId, (mergeAw aw.clients emptySummary u).1,
           aw.updateObservers, aw.changeObservers⟩,
          awMessages aw
            ⟨aw.clientId, (mergeAw aw.clients emptySummary u).1,
             aw.updateObservers, aw.changeObservers⟩
            (mergeAw aw.clients emptySummary u).2 origin), none) := by
    rw [awareness_apply_update_v1, hdec]
  have hsum2 : (mergeAw aw.clients emptySummary u).2
      = ⟨addedOf aw.clients u, updatedOf aw.clients u, removedOf aw.clients u⟩ := by
    rw [mergeAw_summary u aw.clients emptySummary hnod]
    rfl
  refine ⟨by rw [happ], by rw [happ], hsum2,
    fun c => mergeAw_lookup u aw.clients emptySummary c hnod, by rw [happ], ?_⟩
  intro m hm
  rw [happ] at hm
  rw [awMessages] at hm
  rcases List.mem_append.mp hm with h1 | h2
  · obtain ⟨p, hp, hpm⟩ := List.mem_map.mp h1
    subst hpm
    exact ⟨hsum2, rfl, by rw [happ]⟩
  · by_cases he : (mergeAw aw.clients emptySummary u).2 = emptySummary
    · rw [if_pos he] at h2
      simp at h2
    · rw [if_neg he] at h2
      obtain ⟨p, hp, hpm⟩ := List.mem_map.mp h2
      subst hpm
      exact ⟨hsum2, rfl, by rw [happ]⟩

theorem awareness_apply_update_delivers_delta_witness :
    (awareness_apply_update_v1 ⟨2, [], [9], [8]⟩ [1, 1, 0, 1, 120] (some "p")).2 = none
    ∧ (mergeAw ([] : List (Nat × String)) emptySummary [⟨1, 0, "x"⟩]).2
        = ⟨addedOf [] [⟨1, 0, "x"⟩], updatedOf [] [⟨1, 0, "x"⟩], removedOf [] [⟨1, 0, "x"⟩]⟩ :=
  ⟨(awareness_apply_update_delivers_delta ⟨2, [], [9], [8]⟩ [1, 1, 0, 1, 120] (some "p")
      [⟨1, 0, "x"⟩] rfl (by decide)).1,
   (awareness_apply_update_delivers_delta ⟨2, [], [9], [8]⟩ [1, 1, 0, 1, 120] (some "p")
      [⟨1, 0, "x"⟩] rfl (by decide)).2.2.1⟩

/-- C8: operating on a client id the awareness instance has never seen is a
silent no-op: removing it changes nothing and fires no removed delta, and
encoding an update for an explicit client list skips the unknown id without
surfacing an error. -/
theorem awareness_unknown_client_noop :
    ∀ (aw : Awareness) (c : Nat) (cs : List Nat), lookupA aw.clients c = none →
      removeState aw c = (aw, [])
      ∧ awareness_remove_states aw [c] = (aw, [])
      ∧ updateWithClients aw (c :: cs) = updateWithClients aw cs
      ∧ awareness_encode_update_v1 aw (some (c :: cs))
          = Except.ok (AwarenessUpdate.encode_v1 (updateWithClients aw cs)) := by
  intro aw c cs h
  have h1 : removeState aw c = (aw, []) := by
    rw [removeState, h]
  have h3 : updateWithClients aw (c :: cs) = updateWithClients aw cs := by
    show (match lookupA aw.clients c with
          | some s => (⟨c, 0, s⟩ : AwEntry) :: updateWithClients aw cs
          | none => updateWithClients aw cs) = updateWithClients aw cs
    rw [h]
  refine ⟨h1, ?_, h3, ?_⟩
  · show (let r := removeState aw c; (r.1, ([] : List AwMsg) ++ r.2)) = (aw, [])
    rw [h1]
    rfl
  · rw [awareness_encode_update_v1, h3]

theorem awareness_unknown_client_noop_witness :
    removeState ⟨1, [(1, "s")], [], []⟩ 5 = (⟨1, [(1, "s")], [], []⟩, [])
    ∧ awareness_encode_update_v1 ⟨1, [(1, "s")], [], []⟩ (some [5, 1])
        = Except.ok (AwarenessUpdate.encode_v1 (updateWithClients ⟨1, [(1, "s")], [], []⟩ [1])) :=
  ⟨(awareness_unknown_client_noop ⟨1, [(1, "s")], [], []⟩ 5 [1] rfl).1,
   (awareness_unknown_client_noop ⟨1, [(1, "s")], [], []⟩ 5 [1] rfl).2.2.2⟩

/-- C9: set_local_state mutates only the binding of the own client id, leaving
every other client untouched; it succeeds for every value the serializer
accepts, and a serialization failure is surfaced as an error with the whole map,
local state included, left unchanged. -/
theorem awareness_set_local_state_frame :
    ∀ (ser : Any → Option String) (aw : Awareness) (v : Any),
      (∀ s, ser v = some s →
        awareness_set_local_state ser aw v
          = (⟨aw.clientId, setA aw.clients aw.clientId s,
              aw.updateObservers, aw.changeObservers⟩, none)
        ∧ lookupA (setA aw.clients aw.clientId s) aw.clientId = some s
        ∧ ∀ c, c ≠ aw.clientId → lookupA (setA aw.clients aw.clientId s) c = lookupA aw.clients c)
      ∧ (ser v = none →
        awareness_set_local_state ser aw v = (aw, some ⟨"error", "serialization failed"⟩)) := by
  intro ser aw v
  constructor
  · intro s hs
    exact ⟨by rw [awareness_set_local_state, hs],
      lookupA_setA_same aw.clients aw.clientId s,
      fun c hc => lookupA_setA_other aw.clients aw.clientId c s hc⟩
  · intro hn
    rw [awareness_set_local_state, hn]

theorem awareness_set_local_state_frame_witness :
    lookupA (setA [(2, "w")] 1 "z") 1 = some "z"
    ∧ lookupA (setA [(2, "w")] 1 "z") 2 = lookupA [(2, "w")] 2 :=
  ⟨((awareness_set_local_state_frame
      (fun a => match a with | Any.strV s => some s | _ => none)
      ⟨1, [(2, "w")], [], []⟩ (Any.strV "z")).1 "z" rfl).2.1,
   ((awareness_set_local_state_frame
      (fun a => match a with | Any.strV s => some s | _ => none)
      ⟨1, [(2, "w")], [], []⟩ (Any.strV "z")).1 "z" rfl).2.2 2 (by decide)⟩

/-- C10: get_states silently omits every client whose stored state string fails
deserialization, so its key set is contained in, and can be strictly smaller
than, the client id list, and no error is surfaced for the omitted clients. -/
theorem awareness_get_states_omits_unparsable :
    (∀ (fromStr : String → Option Any) (aw : Awareness) (c : Nat) (a : Any),
        (c, a) ∈ awareness_get_states fromStr aw → c ∈ awareness_get_client_ids aw)
    ∧ (∀ (fromStr : String → Option Any) (aw : Awareness) (c : Nat) (s : String),
        (awareness_get_client_ids aw).Nodup → lookupA aw.clients c = some s →
        fromStr s = none →
        c ∉ (awareness_get_states fromStr aw).map Prod.fst)
    ∧ (∃ (fromStr : String → Option Any) (aw : Awareness),
        ((awareness_get_states fromStr aw).map Prod.fst).length
          < (awareness_get_client_ids aw).length) := by
  refine ⟨?_, ?_, ?_⟩
  · intro fromStr aw c a hm
    rw [awareness_get_states] at hm
    obtain ⟨p, hp, hg⟩ := List.mem_filterMap.mp hm
    cases hf : fromStr p.2 with
    | none =>
      rw [hf] at hg
      exact absurd hg (by simp)
    | some a2 =>
      rw [hf] at hg
      have hg2 : some (p.1, a2) = some (c, a) := hg
      have hp1 : p.1 = c := congrArg Prod.fst (Option.some.inj hg2)
      exact hp1 ▸ List.mem_map_of_mem Prod.fst hp
  · intro fromStr aw c s hnod hlook hnone hc
    rw [awareness_get_states] at hc
    obtain ⟨q, hq, hqm⟩ := List.mem_map.mp hc
    obtain ⟨p, hp, hg⟩ := List.mem_filterMap.mp hq
    cases hf : fromStr p.2 with
    | none =>
      rw [hf] at hg
      exact absurd hg (by simp)
    | some a2 =>
      rw [hf] at hg
      have hg2 : some (p.1, a2) = some q := hg
      have hpq : (p.1, a2) = q := Option.some.inj hg2
      have hq1 : p.1 = c := by
        rw [← hpq] at hqm
        exact hqm
      have hlookp := lookupA_of_mem_nodup aw.clients hnod p hp
      rw [hq1] at hlookp
      have hps : p.2 = s := Option.some.inj (hlookp.symm.trans hlook)
      rw [hps, hnone] at hf
      exact Option.noConfusion hf
  · exact ⟨fun _ => none, ⟨1, [(1, "b")], [], []⟩, by decide⟩

theorem awareness_get_states_omits_unparsable_witness :
    2 ∉ (awareness_get_states (fun s => if s = "good" then some Any.nullV else none)
          ⟨1, [(1, "good"), (2, "bad")], [], []⟩).map Prod.fst :=
  awareness_get_states_omits_unparsable.2.1
    (fun s => if s = "good" then some Any.nullV else none)
    ⟨1, [(1, "good"), (2, "bad")], [], []⟩ 2 "bad" (by decide) rfl (by decide)

end Yex
